import Mathlib

/-!
Verification of the dongguaTV CORS/HLS proxy.

The repository contains two near-duplicate implementations of the same
proxy-and-rewrite engine: a Node server (`proxy-server.js`) and a Cloudflare
Workers script (`src/unnamed/part_000`, the second script in that file).
This development shallowly embeds the pure request-processing logic of both:

* the playlist rewriter `rewriteM3u8` and the relative-URL resolver
  `resolveUrl` (textually identical in the two variants),
* the JS `encodeURIComponent` / `String.trim` / `split('\n')` platform
  primitives the rewriter relies on (modelled after the ECMAScript spec),
* the request/response header translation of both variants (`Headers`, i.e.
  case-insensitive maps, for the Workers variant; plain case-sensitive JS
  objects for the Node variant),
* the routing / target-validation decisions of both request handlers.

Strings are handled as `List Char` internally, with `String` wrappers at the
boundary.  Network, timers, and streaming are outside the embedding; the URL
parser of the host platform (`new URL`) is abstracted as a boolean parameter
of the handler models.
-/

namespace DongguaTV

/-- ECMAScript WhiteSpace ∪ LineTerminator, the character class removed by
JS `String.prototype.trim` (TAB VT FF SP NBSP ZWNBSP, Unicode space
separators, LF CR LS PS). -/
def isJsWhitespace (c : Char) : Bool :=
  c.toNat == 9 || c.toNat == 10 || c.toNat == 11 || c.toNat == 12 ||
  c.toNat == 13 || c.toNat == 32 || c.toNat == 160 || c.toNat == 0x1680 ||
  decide (0x2000 ≤ c.toNat ∧ c.toNat ≤ 0x200A) ||
  c.toNat == 0x2028 || c.toNat == 0x2029 || c.toNat == 0x202F ||
  c.toNat == 0x205F || c.toNat == 0x3000 || c.toNat == 0xFEFF

/-- JS `line.trim()`: strip leading and trailing JS whitespace. -/
def trimChars (l : List Char) : List Char :=
  ((l.dropWhile isJsWhitespace).reverse.dropWhile isJsWhitespace).reverse

/-- ASCII lowercasing of a string, as JS `toLowerCase` acts on the
header-name / scheme characters used by this program. -/
def lowerStr (s : String) : String :=
  String.mk (s.data.map Char.toLower)

/-- Characters `encodeURIComponent` leaves unencoded:
`A-Z a-z 0-9 - _ . ! ~ * ' ( )` (by code point). -/
def isUnreservedCode (n : Nat) : Bool :=
  decide (65 ≤ n ∧ n ≤ 90) || decide (97 ≤ n ∧ n ≤ 122) ||
  decide (48 ≤ n ∧ n ≤ 57) ||
  n == 45 || n == 95 || n == 46 || n == 33 || n == 126 ||
  n == 42 || n == 39 || n == 40 || n == 41

/-- Uppercase hexadecimal digit (argument is always < 16 here). -/
def hexDigitUpper (n : Nat) : Char :=
  match n with
  | 0 => '0' | 1 => '1' | 2 => '2' | 3 => '3' | 4 => '4'
  | 5 => '5' | 6 => '6' | 7 => '7' | 8 => '8' | 9 => '9'
  | 10 => 'A' | 11 => 'B' | 12 => 'C' | 13 => 'D' | 14 => 'E'
  | _ => 'F'

/-- UTF-8 encoding of one Unicode scalar value, as `encodeURIComponent`
encodes non-ASCII characters byte by byte. -/
def utf8Bytes (c : Char) : List Nat :=
  let n := c.toNat
  if n < 0x80 then [n]
  else if n < 0x800 then [0xC0 + n / 0x40, 0x80 + n % 0x40]
  else if n < 0x10000 then
    [0xE0 + n / 0x1000, 0x80 + (n / 0x40) % 0x40, 0x80 + n % 0x40]
  else
    [0xF0 + n / 0x40000, 0x80 + (n / 0x1000) % 0x40,
     0x80 + (n / 0x40) % 0x40, 0x80 + n % 0x40]

/-- Percent-encode a byte sequence (`%XX` with uppercase hex). -/
def percentBytes : List Nat → List Char
  | [] => []
  | b :: bs => '%' :: hexDigitUpper (b / 16) :: hexDigitUpper (b % 16) :: percentBytes bs

/-- One character under `encodeURIComponent`. -/
def encodeChar (c : Char) : List Char :=
  if isUnreservedCode c.toNat then [c] else percentBytes (utf8Bytes c)

/-- Model of the ECMAScript `encodeURIComponent` builtin used by
`rewriteM3u8` in both variants. -/
def encodeURIComponentChars : List Char → List Char
  | [] => []
  | c :: cs => encodeChar c ++ encodeURIComponentChars cs

/-- Source `resolveUrl(url, baseOrigin, basePath)` (proxy-server.js:185-190,
part_000:344-355): classify a playlist reference as absolute /
protocol-relative / root-relative / path-relative and make it absolute. -/
def resolveUrl (url baseOrigin basePath : List Char) : List Char :=
  if "http://".data.isPrefixOf url || "https://".data.isPrefixOf url then url
  else if "//".data.isPrefixOf url then "https:".data ++ url
  else if "/".data.isPrefixOf url then baseOrigin ++ url
  else baseOrigin ++ basePath ++ url

/-- JS `pathname.substring(0, pathname.lastIndexOf('/') + 1)`: the pathname
truncated just after its final slash (empty if there is no slash). -/
def dropAfterLastSlash (l : List Char) : List Char :=
  (l.reverse.dropWhile (fun c => c ≠ '/')).reverse

/-- The literal pattern `URI="` opening an attribute match of the regex
`/URI="([^"]+)"/g`. -/
def uriPat : List Char := ['U', 'R', 'I', '=', '"']

/-- Scan up to the next `"` character: `some (before, after)` if one exists. -/
def splitAtQuote : List Char → Option (List Char × List Char)
  | [] => none
  | c :: cs =>
    if c = '"' then some ([], cs)
    else
      match splitAtQuote cs with
      | some (pre, rest) => some (c :: pre, rest)
      | none => none

/-- One attempted match of `/URI="([^"]+)"/` at the head of the list:
`some (content, rest)` when the list starts with `URI="`, a non-empty
quote-free content, and a closing quote. -/
def matchURI (l : List Char) : Option (List Char × List Char) :=
  if uriPat.isPrefixOf l then
    match splitAtQuote (l.drop 5) with
    | some ([], _) => none
    | some (c :: pre, rest) => some (c :: pre, rest)
    | none => none
  else none

/-- Fuel-indexed left-to-right global regex replacement, the semantics of
JS `line.replace(/URI="([^"]+)"/g, repl)`.  `repl` receives the captured
group and returns the full replacement text. -/
def scanURIAux (repl : List Char → List Char) : Nat → List Char → List Char
  | 0, l => l
  | _ + 1, [] => []
  | fuel + 1, c :: cs =>
    match matchURI (c :: cs) with
    | some (content, rest) => repl content ++ scanURIAux repl fuel rest
    | none => c :: scanURIAux repl fuel cs

/-- Global replacement of every `URI="..."` attribute occurrence. -/
def scanURI (repl : List Char → List Char) (l : List Char) : List Char :=
  scanURIAux repl l.length l

/-- JS `String.prototype.includes`: substring test. -/
def containsSub (pat l : List Char) : Bool :=
  l.tails.any fun t => pat.isPrefixOf t

/-- The directive/comment/blank test of `rewriteM3u8`:
`trimmedLine.startsWith('#') || trimmedLine === ''`. -/
def isDirective (t : List Char) : Bool :=
  "#".data.isPrefixOf t || t.isEmpty

/-- The proxy wrapper applied to every resolved reference:
`proxyOrigin + "/?url=" + encodeURIComponent(absoluteUrl)`. -/
def wrapProxy (proxyOrigin absoluteUrl : List Char) : List Char :=
  proxyOrigin ++ "/?url=".data ++ encodeURIComponentChars absoluteUrl

/-- The replacement text produced for one `URI="..."` capture:
`URI="${proxyOrigin}/?url=${encodeURIComponent(absoluteUrl)}"`. -/
def uriRepl (baseOrigin basePath proxyOrigin : List Char) (uri : List Char) : List Char :=
  uriPat ++ wrapProxy proxyOrigin (resolveUrl uri baseOrigin basePath) ++ ['"']

/-- The body of `lines.map(...)` in `rewriteM3u8` (proxy-server.js:169-182,
part_000:320-338), acting on one playlist line. -/
def rewriteLine (baseOrigin basePath proxyOrigin line : List Char) : List Char :=
  if isDirective (trimChars line) then
    if containsSub uriPat (trimChars line) then
      scanURI (uriRepl baseOrigin basePath proxyOrigin) line
    else line
  else wrapProxy proxyOrigin (resolveUrl (trimChars line) baseOrigin basePath)

/-- JS `content.split('\n')` (always a non-empty list of newline-free
chunks). -/
def splitLines : List Char → List (List Char)
  | [] => [[]]
  | c :: cs =>
    if c = '\n' then [] :: splitLines cs
    else
      match splitLines cs with
      | [] => [[c]]
      | l :: ls => (c :: l) :: ls

/-- JS `lines.join('\n')`. -/
def joinLines : List (List Char) → List Char
  | [] => []
  | [l] => l
  | l :: l' :: ls => l ++ '\n' :: joinLines (l' :: ls)

/-- The two members of the JS `URL` object that `rewriteM3u8` reads from its
`baseUrl` argument. -/
structure URLParts where
  origin : String
  pathname : String
deriving DecidableEq

/-- Source `rewriteM3u8(content, baseUrl, proxyOrigin)`
(proxy-server.js:164-183, part_000:315-339): split at line feeds, rewrite
each line, rejoin. -/
def rewriteM3u8 (content : String) (baseUrl : URLParts) (proxyOrigin : String) : String :=
  String.mk (joinLines ((splitLines content.data).map
    (rewriteLine baseUrl.origin.data
      (dropAfterLastSlash baseUrl.pathname.data) proxyOrigin.data)))

/-! Header-map models.  The Workers variant uses `Headers` objects whose
names are case-insensitive (stored lowercased, `set` replaces); the Node
variant uses plain JS objects with case-sensitive string keys. -/

/-- Case-insensitive header lookup (`Headers.get`, first match). -/
def hget : List (String × String) → String → Option String
  | [], _ => none
  | (k, v) :: t, n => if lowerStr k = lowerStr n then some v else hget t n

/-- Case-insensitive header write (`Headers.set`: replace or append, names
normalized to lowercase). -/
def hset : List (String × String) → String → String → List (String × String)
  | [], n, v => [(lowerStr n, v)]
  | (k, w) :: t, n, v =>
    if lowerStr k = lowerStr n then (k, v) :: t else (k, w) :: hset t n v

/-- Case-sensitive JS object property read. -/
def oget : List (String × String) → String → Option String
  | [], _ => none
  | (k, v) :: t, n => if k = n then some v else oget t n

/-- Case-sensitive JS object property write. -/
def oset : List (String × String) → String → String → List (String × String)
  | [], n, v => [(n, v)]
  | (k, w) :: t, n, v => if k = n then (k, v) :: t else (k, w) :: oset t n v

/-- The spoofed desktop-browser User-Agent used by both variants. -/
def userAgentString : String :=
  "Mozilla/5.0 (Windows NT 10.0; Win64; x64) AppleWebKit/537.36 (KHTML, like Gecko) Chrome/120.0.0.0 Safari/537.36"

/-- The inbound header names eligible for passthrough in both variants. -/
def copyNames : List String := ["range", "accept", "accept-language"]

/-- Workers variant outbound request headers (part_000:212-232): spoof
Referer/Origin/User-Agent, copy range/accept/accept-language when present
and non-empty (JS truthiness), then default Accept to star-slash-star when
the (case-insensitive) map has no accept entry. -/
def buildUpstreamHeaders (inbound : List (String × String)) (targetOrigin : String) :
    List (String × String) :=
  let h0 := hset [] "Referer" (targetOrigin ++ "/")
  let h1 := hset h0 "Origin" targetOrigin
  let h2 := hset h1 "User-Agent" userAgentString
  let h3 := copyNames.foldl (fun acc n =>
    match hget inbound n with
    | some v => if v = "" then acc else hset acc n v
    | none => acc) h2
  if (hget h3 "accept").isSome then h3 else hset h3 "Accept" "*/*"

/-- Node variant outbound request headers (proxy-server.js:79-88): same
intent, but `proxyOptions.headers` is a plain case-sensitive object, so the
final check reads the capitalized key `Accept` while the copy wrote the
lowercase key `accept`. -/
def nodeUpstreamHeaders (inbound : List (String × String)) (targetOrigin : String) :
    List (String × String) :=
  let h0 := oset [] "Referer" (targetOrigin ++ "/")
  let h1 := oset h0 "Origin" targetOrigin
  let h2 := oset h1 "User-Agent" userAgentString
  let h3 := copyNames.foldl (fun acc n =>
    match oget inbound n with
    | some v => if v = "" then acc else oset acc n v
    | none => acc) h2
  match oget h3 "Accept" with
  | some v => if v = "" then oset h3 "Accept" "*/*" else h3
  | none => oset h3 "Accept" "*/*"

/-- The fixed CORS response header set CORS_HEADERS (part_000:152-158,
proxy-server.js:10-16). -/
def CORS_HEADERS : List (String × String) :=
  [("Access-Control-Allow-Origin", "*"),
   ("Access-Control-Allow-Methods", "GET, POST, PUT, DELETE, OPTIONS, HEAD"),
   ("Access-Control-Allow-Headers", "Content-Type, Authorization, Range"),
   ("Access-Control-Expose-Headers", "Content-Length, Content-Range"),
   ("Access-Control-Max-Age", "86400")]

/-- The response-header exclusion set of the Workers proxy path
(part_000:252-263). -/
def excludeHeaders : List String :=
  ["access-control-allow-origin", "access-control-allow-methods",
   "access-control-allow-headers", "access-control-expose-headers",
   "access-control-max-age", "access-control-allow-credentials",
   "content-encoding", "transfer-encoding", "connection", "keep-alive"]

/-- Workers variant downstream response headers (part_000:248-275): copy
every origin header whose lowercased name is not excluded, then set the
fixed CORS headers last. -/
def buildDownstreamHeaders (originHeaders : List (String × String)) :
    List (String × String) :=
  CORS_HEADERS.foldl (fun acc kv => hset acc kv.1 kv.2)
    (originHeaders.foldl (fun acc kv =>
      if lowerStr kv.1 ∈ excludeHeaders then acc else hset acc kv.1 kv.2) [])

/-! Request routing / target validation models. -/

/-- JS regex test `/^https?:\/\//i`. -/
def httpSchemeTest (s : String) : Bool :=
  "http://".data.isPrefixOf (lowerStr s).data ||
  "https://".data.isPrefixOf (lowerStr s).data

/-- Decision taken by the Workers handler for one request
(part_000:168-209): preflight, health check, help page when the `url`
parameter is absent or empty (JS falsy), then in `handleProxyRequest` the
loop check, the scheme regex, and `new URL` parsing, in that order. -/
inductive RouteOutcome where
  | preflight
  | health
  | helpPage
  | loopDetected
  | invalidTarget
  | invalidFormat
  | proceed (target : String)
deriving DecidableEq

/-- The spec's §4.1 error taxonomy. -/
inductive ErrorKind where
  | MissingParameter
  | InvalidFormat
  | LoopDetected
deriving DecidableEq

/-- Workers request handler `handleRequest` / `handleProxyRequest`
(part_000:168-209) as a routing decision.  `parse` abstracts the host
platform's `new URL` success predicate; `origin` is `reqUrl.origin`, the
proxy's own serving origin. -/
def handleRequestModel (parse : String → Bool) (method pathname origin : String)
    (urlParam : Option String) : RouteOutcome :=
  if method = "OPTIONS" then .preflight
  else if pathname = "/health" then .health
  else
    match urlParam with
    | none => .helpPage
    | some raw =>
      if raw = "" then .helpPage
      else if origin.data.isPrefixOf raw.data then .loopDetected
      else if httpSchemeTest raw = false then .invalidTarget
      else if parse raw then .proceed raw
      else .invalidFormat

/-- HTTP status produced immediately by each routing outcome (`none` when
the request proceeds to the upstream fetch). -/
def statusOf : RouteOutcome → Option Nat
  | .preflight => some 204
  | .health => some 200
  | .helpPage => some 200
  | .loopDetected => some 400
  | .invalidTarget => some 400
  | .invalidFormat => some 400
  | .proceed _ => none

/-- Spec error kind of each routing outcome: `Loop detected: self-fetch
blocked` is `LoopDetected`; both `Invalid target URL` (regex failure) and
`Invalid URL format` (parse failure) are the spec's `InvalidFormat`. -/
def errorKindOf : RouteOutcome → Option ErrorKind
  | .loopDetected => some .LoopDetected
  | .invalidTarget => some .InvalidFormat
  | .invalidFormat => some .InvalidFormat
  | _ => none

/-- Decision taken by the Node handler (proxy-server.js:33-158). -/
inductive NodeOutcome where
  | preflight
  | health
  | helpPage
  | unauthorized
  | invalidURL
  | proceed (target : String)
deriving DecidableEq

/-- Node request handler (proxy-server.js:33-158) as a routing decision:
preflight, health, help page on missing/empty `url`, optional bearer-secret
check, then `new URL` in a try/catch — and no loop-prevention check of any
kind. -/
def nodeHandle (parse : String → Bool) (password method pathname : String)
    (urlParam : Option String) (auth : Option String) : NodeOutcome :=
  if method = "OPTIONS" then .preflight
  else if pathname = "/health" then .health
  else
    match urlParam with
    | none => .helpPage
    | some raw =>
      if raw = "" then .helpPage
      else if password ≠ "" ∧ auth ≠ some ("Bearer " ++ password) then .unauthorized
      else if parse raw then .proceed raw
      else .invalidURL

/-- HTTP status produced immediately by each Node routing outcome. -/
def nodeStatusOf : NodeOutcome → Option Nat
  | .preflight => some 204
  | .health => some 200
  | .helpPage => some 200
  | .unauthorized => some 403
  | .invalidURL => some 400
  | .proceed _ => none

/-- Modelled from the spec: the claim's four-way classification of a
playlist reference (absolute returned unchanged; `//`-prefixed given
`https:`; `/`-prefixed prefixed with the base origin; otherwise prefixed
with base origin plus the base path truncated after its final slash).
Stated separately from the source's `resolveUrl` so the code can be checked
against the claim's wording. -/
def resolveClassSpec (ref baseOrigin basePath : List Char) : List Char :=
  if "http://".data.isPrefixOf ref || "https://".data.isPrefixOf ref then ref
  else if "//".data.isPrefixOf ref then "https:".data ++ ref
  else if "/".data.isPrefixOf ref then baseOrigin ++ ref
  else baseOrigin ++ basePath ++ ref

/-- Decomposition of the tail of a directive line as alternating
`URI="uri"` occurrences and literal stretches: each pair `(uri, lit)`
contributes `URI="` ++ uri ++ `"` ++ lit. -/
def segTail : List (List Char × List Char) → List Char
  | [] => []
  | (u, lit) :: rest => uriPat ++ u ++ '"' :: (lit ++ segTail rest)

/-- The same decomposition with every captured `uri` replaced by
`repl uri` (which includes the surrounding `URI="..."` text). -/
def segTailRepl (repl : List Char → List Char) : List (List Char × List Char) → List Char
  | [] => []
  | (u, lit) :: rest => repl u ++ lit ++ segTailRepl repl rest

/-- Well-formedness of one decomposition segment: a non-empty quote-free
capture (the shape the regex group `([^"]+)` matches) followed by a literal
stretch that contains no further `URI="` sequence (it may contain other
quoted attributes such as `KEYFORMAT="identity"`). -/
def SegOk (p : List Char × List Char) : Prop :=
  p.1 ≠ [] ∧ (∀ c ∈ p.1, c ≠ '"') ∧ containsSub uriPat p.2 = false

instance (p : List Char × List Char) : Decidable (SegOk p) := by
  unfold SegOk; infer_instance

/-! Lemmas about line splitting and joining. -/

theorem splitLines_ne_nil (l : List Char) : splitLines l ≠ [] := by
  induction l with
  | nil => simp [splitLines]
  | cons c cs ih =>
    simp only [splitLines]
    split
    · simp
    · split <;> simp_all

theorem joinLines_cons_cons (a b : List Char) (t : List (List Char)) :
    joinLines (a :: b :: t) = a ++ '\n' :: joinLines (b :: t) := rfl

theorem joinLines_splitLines (l : List Char) : joinLines (splitLines l) = l := by
  induction l with
  | nil => rfl
  | cons c cs ih =>
    simp only [splitLines]
    by_cases hc : c = '\n'
    · rw [if_pos hc]
      rcases hS : splitLines cs with _ | ⟨s, t⟩
      · exact absurd hS (splitLines_ne_nil cs)
      · rw [hS] at ih
        rw [joinLines_cons_cons, hc]
        simpa using ih
    · rw [if_neg hc]
      rcases hS : splitLines cs with _ | ⟨s, t⟩
      · exact absurd hS (splitLines_ne_nil cs)
      · rw [hS] at ih
        rcases t with _ | ⟨s', t'⟩
        · simpa [joinLines] using congrArg (c :: ·) ih
        · rw [joinLines_cons_cons]
          rw [joinLines_cons_cons] at ih
          simpa using congrArg (c :: ·) ih

theorem splitLines_eq_single (l : List Char) (h : '\n' ∉ l) : splitLines l = [l] := by
  induction l with
  | nil => rfl
  | cons c cs ih =>
    simp only [splitLines]
    rw [if_neg (by intro hc; exact h (hc ▸ List.mem_cons_self c cs)),
      ih (fun hm => h (List.mem_cons_of_mem c hm))]

theorem splitLines_append_newline (x r : List Char) (h : '\n' ∉ x) :
    splitLines (x ++ '\n' :: r) = x :: splitLines r := by
  induction x with
  | nil => simp [splitLines]
  | cons c cs ih =>
    simp only [List.cons_append, splitLines, List.append_eq]
    rw [if_neg (by intro hc; exact h (hc ▸ List.mem_cons_self c cs)),
      ih (fun hm => h (List.mem_cons_of_mem c hm))]

theorem splitLines_joinLines (ls : List (List Char)) (hne : ls ≠ [])
    (h : ∀ x ∈ ls, '\n' ∉ x) : splitLines (joinLines ls) = ls := by
  induction ls with
  | nil => exact absurd rfl hne
  | cons a t ih =>
    rcases t with _ | ⟨b, t'⟩
    · exact splitLines_eq_single a (h a (by simp))
    · rw [joinLines_cons_cons,
        splitLines_append_newline a _ (h a (by simp)),
        ih (by simp) (fun x hx => h x (List.mem_cons_of_mem a hx))]

theorem mem_splitLines_no_newline (l : List Char) (x : List Char)
    (hx : x ∈ splitLines l) : '\n' ∉ x := by
  induction l generalizing x with
  | nil =>
    simp only [splitLines, List.mem_singleton] at hx
    simp [hx]
  | cons c cs ih =>
    simp only [splitLines] at hx
    by_cases hc : c = '\n'
    · rw [if_pos hc] at hx
      rcases List.mem_cons.mp hx with h1 | h2
      · simp [h1]
      · exact ih x h2
    · rw [if_neg hc] at hx
      rcases hS : splitLines cs with _ | ⟨s, t⟩
      · exact absurd hS (splitLines_ne_nil cs)
      · rw [hS] at hx
        rcases List.mem_cons.mp hx with h1 | h2
        · subst h1
          intro hm
          rcases List.mem_cons.mp hm with h3 | h4
          · exact hc h3.symm
          · exact ih s (hS ▸ List.mem_cons_self s t) h4
        · exact ih x (hS ▸ List.mem_cons_of_mem s h2)

/-! Lemmas about the `encodeURIComponent` model. -/

theorem hexDigitUpper_ne_newline (n : Nat) : hexDigitUpper n ≠ '\n' := by
  unfold hexDigitUpper
  split <;> decide

theorem mem_percentBytes_ne_newline (bs : List Nat) (c : Char)
    (hc : c ∈ percentBytes bs) : c ≠ '\n' := by
  induction bs with
  | nil => simp [percentBytes] at hc
  | cons b t ih =>
    simp only [percentBytes, List.mem_cons] at hc
    rcases hc with h | h | h | h
    · simp [h]
    · exact h ▸ hexDigitUpper_ne_newline _
    · exact h ▸ hexDigitUpper_ne_newline _
    · exact ih h

theorem mem_encodeChar_ne_newline (a c : Char) (hc : c ∈ encodeChar a) : c ≠ '\n' := by
  unfold encodeChar at hc
  split at hc
  · rename_i h
    rw [List.mem_singleton] at hc
    subst hc
    intro hn
    subst hn
    exact absurd h (by decide)
  · exact mem_percentBytes_ne_newline _ c hc

theorem mem_encodeURIComponent_ne_newline (l : List Char) (c : Char)
    (hc : c ∈ encodeURIComponentChars l) : c ≠ '\n' := by
  induction l with
  | nil => simp [encodeURIComponentChars] at hc
  | cons a t ih =>
    simp only [encodeURIComponentChars, List.mem_append] at hc
    rcases hc with h | h
    · exact mem_encodeChar_ne_newline a c h
    · exact ih h

/-! Lemmas about the `URI="..."` regex-replacement scan. -/

theorem splitAtQuote_sound :
    ∀ {l pre rest : List Char}, splitAtQuote l = some (pre, rest) →
      l = pre ++ '"' :: rest := by
  intro l
  induction l with
  | nil => intro pre rest h; simp [splitAtQuote] at h
  | cons c cs ih =>
    intro pre rest h
    simp only [splitAtQuote] at h
    by_cases hc : c = '"'
    · rw [if_pos hc] at h
      simp only [Option.some.injEq, Prod.mk.injEq] at h
      rw [← h.1, ← h.2, hc]
      rfl
    · rw [if_neg hc] at h
      rcases hs : splitAtQuote cs with _ | ⟨pre', rest'⟩
      · rw [hs] at h; exact absurd h (by simp)
      · rw [hs] at h
        simp only [Option.some.injEq, Prod.mk.injEq] at h
        rw [← h.1, ← h.2, ih hs]
        rfl

theorem splitAtQuote_append (u r : List Char) (hq : ∀ c ∈ u, c ≠ '"') :
    splitAtQuote (u ++ '"' :: r) = some (u, r) := by
  induction u with
  | nil => simp [splitAtQuote]
  | cons c u' ih =>
    simp only [List.cons_append, splitAtQuote, List.append_eq]
    rw [if_neg (hq c (List.mem_cons_self c u')),
      ih (fun a ha => hq a (List.mem_cons_of_mem c ha))]

theorem matchURI_some_shape {l u r : List Char} (h : matchURI l = some (u, r)) :
    ∃ t, l = uriPat ++ t ∧ splitAtQuote t = some (u, r) ∧ u ≠ [] := by
  unfold matchURI at h
  by_cases hp : uriPat.isPrefixOf l
  · rw [if_pos hp] at h
    obtain ⟨t, ht⟩ := List.isPrefixOf_iff_prefix.mp hp
    have hd : l.drop 5 = t := by
      rw [← ht]
      have h5 : uriPat.length = 5 := rfl
      rw [← h5]
      exact List.drop_left uriPat t
    rw [hd] at h
    rcases hs : splitAtQuote t with _ | ⟨pre, rest⟩
    · rw [hs] at h; exact absurd h (by simp)
    · rw [hs] at h
      rcases pre with _ | ⟨c0, pre'⟩
      · exact absurd h (by simp)
      · simp only [Option.some.injEq, Prod.mk.injEq] at h
        exact ⟨t, ht.symm, by rw [hs, h.1, h.2], by rw [← h.1]; simp⟩
  · rw [if_neg hp] at h
    exact absurd h (by simp)

theorem matchURI_none_of_noquote {l : List Char} (h : ∀ c ∈ l, c ≠ '"') :
    matchURI l = none := by
  rcases hm : matchURI l with _ | ⟨u, r⟩
  · rfl
  · obtain ⟨t, hl, -, -⟩ := matchURI_some_shape hm
    have hq : ('"' : Char) ∈ l := by
      rw [hl]; exact List.mem_append_left t (by decide)
    exact absurd rfl (h _ hq)

theorem containsSub_self_append (pat t : List Char) :
    containsSub pat (pat ++ t) = true := by
  unfold containsSub
  rw [List.any_eq_true]
  exact ⟨pat ++ t, (List.mem_tails _ _).mpr (List.suffix_refl _),
    List.isPrefixOf_iff_prefix.mpr ⟨t, rfl⟩⟩

theorem containsSub_tail {pat : List Char} {c : Char} {cs : List Char}
    (h : containsSub pat (c :: cs) = false) : containsSub pat cs = false := by
  unfold containsSub at h ⊢
  rw [List.tails_cons, List.any_cons] at h
  cases hcs : cs.tails.any (fun t => pat.isPrefixOf t)
  · rfl
  · rw [hcs] at h
    simp at h

theorem matchURI_none_of_no_pattern {l : List Char}
    (h : containsSub uriPat l = false) : matchURI l = none := by
  rcases hm : matchURI l with _ | ⟨u, r⟩
  · rfl
  · obtain ⟨t, hl, -, -⟩ := matchURI_some_shape hm
    rw [hl, containsSub_self_append] at h
    exact absurd h (by simp)

/-- If a non-empty literal stretch `a` contains no occurrence of the
five-character pattern `URI="`, the regex cannot match at its head, even
right before a real `URI="` marker: a match window overlapping the marker
boundary would force a non-trivial border of `URI="`, and the pattern has
none. -/
theorem matchURI_append_none (a b : List Char) (ha : a ≠ [])
    (hsub : containsSub uriPat a = false) : matchURI (a ++ uriPat ++ b) = none := by
  rcases hm : matchURI (a ++ uriPat ++ b) with _ | ⟨u, r⟩
  · rfl
  · obtain ⟨t, hl, -, -⟩ := matchURI_some_shape hm
    rcases a with _ | ⟨c1, a⟩
    · exact absurd rfl ha
    rcases a with _ | ⟨c2, a⟩
    · simp +decide [uriPat] at hl
    rcases a with _ | ⟨c3, a⟩
    · simp +decide [uriPat] at hl
    rcases a with _ | ⟨c4, a⟩
    · simp +decide [uriPat] at hl
    rcases a with _ | ⟨c5, a⟩
    · simp +decide [uriPat] at hl
    · simp only [uriPat, List.cons_append, List.cons.injEq] at hl
      obtain ⟨h1, h2, h3, h4, h5, -⟩ := hl
      subst h1; subst h2; subst h3; subst h4; subst h5
      rw [show ('U' :: 'R' :: 'I' :: '=' :: '"' :: a : List Char) = uriPat ++ a from rfl,
        containsSub_self_append] at hsub
      exact absurd hsub (by simp)

theorem matchURI_head (u r : List Char) (hu : u ≠ []) (hq : ∀ c ∈ u, c ≠ '"') :
    matchURI (uriPat ++ (u ++ '"' :: r)) = some (u, r) := by
  unfold matchURI
  rw [if_pos (List.isPrefixOf_iff_prefix.mpr ⟨u ++ '"' :: r, rfl⟩)]
  have hd : (uriPat ++ (u ++ '"' :: r)).drop 5 = u ++ '"' :: r := by
    have h5 : uriPat.length = 5 := rfl
    rw [← h5]
    exact List.drop_left uriPat _
  rw [hd, splitAtQuote_append u r hq]
  rcases u with _ | ⟨c, u'⟩
  · exact absurd rfl hu
  · rfl

theorem scanAux_quote_free (repl : List Char → List Char) :
    ∀ (fuel : Nat) (l : List Char), (∀ c ∈ l, c ≠ '"') →
      scanURIAux repl fuel l = l := by
  intro fuel
  induction fuel with
  | zero => intro l _; rfl
  | succ f ih =>
    intro l h
    rcases l with _ | ⟨c, cs⟩
    · rfl
    · simp only [scanURIAux]
      rw [matchURI_none_of_noquote h]
      exact congrArg (c :: ·) (ih cs (fun a ha => h a (List.mem_cons_of_mem c ha)))

theorem segTail_cons_eq (u l0 : List Char) (rest : List (List Char × List Char)) :
    segTail ((u, l0) :: rest) = uriPat ++ (u ++ '"' :: (l0 ++ segTail rest)) := by
  simp [segTail]

theorem scanAux_segs (repl : List Char → List Char) :
    ∀ (fuel : Nat) (lit : List Char) (segs : List (List Char × List Char)),
      containsSub uriPat lit = false →
      (∀ p ∈ segs, SegOk p) →
      (lit ++ segTail segs).length ≤ fuel →
      scanURIAux repl fuel (lit ++ segTail segs) = lit ++ segTailRepl repl segs := by
  intro fuel
  induction fuel with
  | zero =>
    intro lit segs hlit hsegs hlen
    have h0 : (lit ++ segTail segs).length = 0 := Nat.le_zero.mp hlen
    rw [List.length_append] at h0
    have hl : lit = [] := List.length_eq_zero.mp (by omega)
    have hs : segTail segs = [] := List.length_eq_zero.mp (by omega)
    rcases segs with _ | ⟨⟨u, l0⟩, rest⟩
    · simp [hl, segTail, segTailRepl, scanURIAux]
    · simp [segTail, uriPat] at hs
  | succ f ih =>
    intro lit segs hlit hsegs hlen
    rcases lit with _ | ⟨c, lit'⟩
    · rcases segs with _ | ⟨⟨u, l0⟩, rest⟩
      · rfl
      · obtain ⟨hu, hqu, hql⟩ := hsegs _ (List.mem_cons_self _ _)
        rw [List.nil_append, segTail_cons_eq]
        have hM := matchURI_head u (l0 ++ segTail rest) hu hqu
        have hstep :
            scanURIAux repl (f + 1) (uriPat ++ (u ++ '"' :: (l0 ++ segTail rest))) =
              repl u ++ scanURIAux repl f (l0 ++ segTail rest) := by
          have he :
              scanURIAux repl (f + 1) (uriPat ++ (u ++ '"' :: (l0 ++ segTail rest))) =
                match matchURI (uriPat ++ (u ++ '"' :: (l0 ++ segTail rest))) with
                | some (content, rest') => repl content ++ scanURIAux repl f rest'
                | none =>
                  'U' :: scanURIAux repl f
                    (['R', 'I', '=', '"'] ++ (u ++ '"' :: (l0 ++ segTail rest))) := rfl
          rw [he, hM]
        rw [hstep]
        have hlen' : (l0 ++ segTail rest).length ≤ f := by
          rw [List.nil_append, segTail_cons_eq] at hlen
          simp only [List.length_append, List.length_cons] at hlen
          simp only [List.length_append]
          omega
        rw [ih l0 rest hql (fun p hp => hsegs p (List.mem_cons_of_mem _ hp)) hlen']
        simp [segTailRepl]
    · have hnone : matchURI ((c :: lit') ++ segTail segs) = none := by
        rcases segs with _ | ⟨⟨u, l0⟩, rest⟩
        · rw [show segTail ([] : List (List Char × List Char)) = [] from rfl,
            List.append_nil]
          exact matchURI_none_of_no_pattern hlit
        · rw [segTail_cons_eq, ← List.append_assoc]
          exact matchURI_append_none (c :: lit') _ (by simp) hlit
      have he :
          scanURIAux repl (f + 1) ((c :: lit') ++ segTail segs) =
            match matchURI ((c :: lit') ++ segTail segs) with
            | some (content, rest') => repl content ++ scanURIAux repl f rest'
            | none => c :: scanURIAux repl f (lit' ++ segTail segs) := rfl
      rw [he, hnone]
      have hlen' : (lit' ++ segTail segs).length ≤ f := by
        simp only [List.cons_append, List.length_cons] at hlen
        omega
      rw [ih lit' segs (containsSub_tail hlit) hsegs hlen']
      rfl

theorem scanURI_segs (repl : List Char → List Char) (lit : List Char)
    (segs : List (List Char × List Char)) (hlit : containsSub uriPat lit = false)
    (hsegs : ∀ p ∈ segs, SegOk p) :
    scanURI repl (lit ++ segTail segs) = lit ++ segTailRepl repl segs :=
  scanAux_segs repl _ lit segs hlit hsegs le_rfl

theorem scanAux_no_newline (repl : List Char → List Char)
    (hrepl : ∀ u, ∀ c ∈ repl u, c ≠ '\n') :
    ∀ (fuel : Nat) (l : List Char), (∀ c ∈ l, c ≠ '\n') →
      ∀ c ∈ scanURIAux repl fuel l, c ≠ '\n' := by
  intro fuel
  induction fuel with
  | zero => intro l h c hc; exact h c hc
  | succ f ih =>
    intro l h c hc
    rcases l with _ | ⟨a, cs⟩
    · simp [scanURIAux] at hc
    · simp only [scanURIAux] at hc
      rcases hm : matchURI (a :: cs) with _ | ⟨u, r⟩
      · rw [hm] at hc
        simp only [List.mem_cons] at hc
        rcases hc with rfl | hc
        · exact h c (List.mem_cons_self c cs)
        · exact ih cs (fun b hb => h b (List.mem_cons_of_mem a hb)) c hc
      · rw [hm] at hc
        simp only [List.mem_append] at hc
        rcases hc with hc | hc
        · exact hrepl u c hc
        · obtain ⟨t, hl, hsq, -⟩ := matchURI_some_shape hm
          have ht := splitAtQuote_sound hsq
          refine ih r ?_ c hc
          intro b hb
          refine h b ?_
          rw [hl, ht]
          simp [hb]

/-! Lemmas about trimming, substring containment, and the branches of
`rewriteLine`. -/

theorem infix_dropWhile (p : Char → Bool) (pat l : List Char) (hne : pat ≠ [])
    (hnp : ∀ c ∈ pat, p c = false) (h : pat <:+: l) : pat <:+: l.dropWhile p := by
  induction l with
  | nil =>
    rw [List.infix_nil] at h
    exact absurd h hne
  | cons c t ih =>
    by_cases hc : p c
    · rw [List.dropWhile_cons, if_pos hc]
      obtain ⟨s, r, hs⟩ := h
      rcases s with _ | ⟨s0, s'⟩
      · rcases pat with _ | ⟨p0, pt⟩
        · exact absurd rfl hne
        · simp only [List.nil_append, List.cons_append, List.cons.injEq] at hs
          have hp0 := hnp p0 (List.mem_cons_self _ _)
          rw [hs.1] at hp0
          rw [hp0] at hc
          exact absurd hc (by simp)
      · simp only [List.cons_append, List.cons.injEq] at hs
        exact ih ⟨s', r, hs.2⟩
    · rw [List.dropWhile_cons, if_neg hc]
      exact h

theorem infix_trimChars (pat l : List Char) (hne : pat ≠ [])
    (hnw : ∀ c ∈ pat, isJsWhitespace c = false) (h : pat <:+: l) :
    pat <:+: trimChars l := by
  unfold trimChars
  have h1 : pat <:+: l.dropWhile isJsWhitespace := infix_dropWhile _ pat l hne hnw h
  have h2 := List.reverse_infix.mpr h1
  have h3 := infix_dropWhile isJsWhitespace pat.reverse _ (by simpa using hne)
    (fun c hc => hnw c (List.mem_reverse.mp hc)) h2
  have h4 := List.reverse_infix.mpr h3
  simpa using h4

theorem containsSub_correct (pat l : List Char) :
    containsSub pat l = true ↔ pat <:+: l := by
  unfold containsSub
  rw [List.any_eq_true]
  constructor
  · rintro ⟨t, ht, hp⟩
    exact List.infix_iff_prefix_suffix.mpr
      ⟨t, List.isPrefixOf_iff_prefix.mp hp, (List.mem_tails _ _).mp ht⟩
  · intro h
    obtain ⟨t, hp, hs⟩ := List.infix_iff_prefix_suffix.mp h
    exact ⟨t, (List.mem_tails _ _).mpr hs, List.isPrefixOf_iff_prefix.mpr hp⟩

theorem rewriteLine_media (bo bp po line : List Char)
    (h : isDirective (trimChars line) = false) :
    rewriteLine bo bp po line = wrapProxy po (resolveUrl (trimChars line) bo bp) := by
  simp [rewriteLine, h]

theorem rewriteLine_directive_plain (bo bp po line : List Char)
    (h1 : isDirective (trimChars line) = true)
    (h2 : containsSub uriPat (trimChars line) = false) :
    rewriteLine bo bp po line = line := by
  simp [rewriteLine, h1, h2]

theorem rewriteLine_directive_scan (bo bp po line : List Char)
    (h1 : isDirective (trimChars line) = true)
    (h2 : containsSub uriPat (trimChars line) = true) :
    rewriteLine bo bp po line = scanURI (uriRepl bo bp po) line := by
  simp [rewriteLine, h1, h2]

theorem mem_wrapProxy_ne_newline (po abs : List Char) (hpo : ∀ c ∈ po, c ≠ '\n') :
    ∀ c ∈ wrapProxy po abs, c ≠ '\n' := by
  intro c hc
  unfold wrapProxy at hc
  simp only [List.mem_append] at hc
  rcases hc with (hc | hc) | hc
  · exact hpo c hc
  · have hq : ∀ a ∈ ("/?url=" : String).data, a ≠ '\n' := by decide
    exact hq c hc
  · exact mem_encodeURIComponent_ne_newline _ c hc

theorem mem_uriRepl_ne_newline (bo bp po : List Char) (hpo : ∀ c ∈ po, c ≠ '\n') :
    ∀ u, ∀ c ∈ uriRepl bo bp po u, c ≠ '\n' := by
  intro u c hc
  unfold uriRepl at hc
  simp only [List.mem_append] at hc
  rcases hc with (hc | hc) | hc
  · have hq : ∀ a ∈ uriPat, a ≠ '\n' := by decide
    exact hq c hc
  · exact mem_wrapProxy_ne_newline po _ hpo c hc
  · rw [List.mem_singleton] at hc
    rw [hc]
    decide

theorem rewriteLine_no_newline (bo bp po line : List Char)
    (hline : ∀ c ∈ line, c ≠ '\n') (hpo : ∀ c ∈ po, c ≠ '\n') :
    ∀ c ∈ rewriteLine bo bp po line, c ≠ '\n' := by
  intro c hc
  unfold rewriteLine at hc
  split at hc
  · split at hc
    · exact scanAux_no_newline _ (mem_uriRepl_ne_newline bo bp po hpo) line.length line
        hline c hc
    · exact hline c hc
  · exact mem_wrapProxy_ne_newline po _ hpo c hc

/-! Lemmas about the case-insensitive header-map model. -/

theorem toNat_ofNatAux (n : Nat) (h : n.isValidChar) : (Char.ofNatAux n h).toNat = n := by
  simp [Char.ofNatAux, Char.toNat, UInt32.toNat]

theorem toLower_toLower (c : Char) : (c.toLower).toLower = c.toLower := by
  unfold Char.toLower
  by_cases h : c.toNat ≥ 65 ∧ c.toNat ≤ 90
  · rw [if_pos h]
    have hv : (c.toNat + 32).isValidChar := Or.inl (by omega)
    have ht : (Char.ofNat (c.toNat + 32)).toNat = c.toNat + 32 := by
      unfold Char.ofNat
      rw [dif_pos hv]
      exact toNat_ofNatAux _ hv
    rw [if_neg (by rw [ht]; omega)]
  · rw [if_neg h, if_neg h]

theorem lowerStr_idem (s : String) : lowerStr (lowerStr s) = lowerStr s := by
  unfold lowerStr
  have hd : (String.mk (s.data.map Char.toLower)).data = s.data.map Char.toLower := rfl
  rw [hd, List.map_map]
  exact congrArg String.mk (List.map_congr_left (fun c _ => toLower_toLower c))

theorem hget_hset (m : List (String × String)) (k v n : String) :
    hget (hset m k v) n = if lowerStr n = lowerStr k then some v else hget m n := by
  induction m with
  | nil =>
    simp only [hset, hget, lowerStr_idem]
    by_cases h : lowerStr n = lowerStr k
    · rw [if_pos h.symm, if_pos h]
    · rw [if_neg (fun hh => h hh.symm), if_neg h]
  | cons kv t ih =>
    obtain ⟨k0, w⟩ := kv
    simp only [hset]
    by_cases h0 : lowerStr k0 = lowerStr k
    · rw [if_pos h0]
      simp only [hget]
      by_cases hn : lowerStr k0 = lowerStr n
      · rw [if_pos hn, if_pos (hn.symm.trans h0)]
      · rw [if_neg hn, if_neg (fun hh : lowerStr n = lowerStr k => hn (h0.trans hh.symm)),
          if_neg hn]
    · rw [if_neg h0]
      simp only [hget]
      by_cases hn : lowerStr k0 = lowerStr n
      · rw [if_pos hn, if_neg (fun hh : lowerStr n = lowerStr k => h0 (hn.trans hh)),
          if_pos hn]
      · rw [if_neg hn, if_neg hn, ih]

theorem hget_copy_fold_excluded (h : List (String × String)) :
    ∀ (acc : List (String × String)) (n : String), n ∈ excludeHeaders → lowerStr n = n →
      hget acc n = none →
      hget (h.foldl (fun acc kv =>
        if lowerStr kv.1 ∈ excludeHeaders then acc else hset acc kv.1 kv.2) acc) n = none := by
  induction h with
  | nil => intro acc n _ _ hacc; exact hacc
  | cons kv t ih =>
    intro acc n hmem hlow hacc
    simp only [List.foldl_cons]
    by_cases hex : lowerStr kv.1 ∈ excludeHeaders
    · rw [if_pos hex]
      exact ih acc n hmem hlow hacc
    · rw [if_neg hex]
      refine ih _ n hmem hlow ?_
      rw [hget_hset, if_neg ?_]
      · exact hacc
      · intro hh
        exact hex (by rw [hh.symm.trans hlow]; exact hmem)

theorem hget_corsFold (m : List (String × String)) (n : String) :
    hget (CORS_HEADERS.foldl (fun acc kv => hset acc kv.1 kv.2) m) n =
      if lowerStr n = "access-control-max-age" then some "86400"
      else if lowerStr n = "access-control-expose-headers" then
        some "Content-Length, Content-Range"
      else if lowerStr n = "access-control-allow-headers" then
        some "Content-Type, Authorization, Range"
      else if lowerStr n = "access-control-allow-methods" then
        some "GET, POST, PUT, DELETE, OPTIONS, HEAD"
      else if lowerStr n = "access-control-allow-origin" then some "*"
      else hget m n := by
  simp only [CORS_HEADERS, List.foldl_cons, List.foldl_nil]
  rw [hget_hset, hget_hset, hget_hset, hget_hset, hget_hset]
  rw [show lowerStr "Access-Control-Max-Age" = "access-control-max-age" from by decide,
    show lowerStr "Access-Control-Expose-Headers" = "access-control-expose-headers" from by
      decide,
    show lowerStr "Access-Control-Allow-Headers" = "access-control-allow-headers" from by
      decide,
    show lowerStr "Access-Control-Allow-Methods" = "access-control-allow-methods" from by
      decide,
    show lowerStr "Access-Control-Allow-Origin" = "access-control-allow-origin" from by
      decide]

/-! String boundary helpers. -/

theorem stringMk_data (s : String) : String.mk s.data = s := by
  cases s
  rfl

theorem stringMk_append (a b : String) : String.mk (a.data ++ b.data) = a ++ b := by
  rw [← String.data_append]

theorem append_ne_empty_left (a b : String) (ha : a ≠ "") : a ++ b ≠ "" := by
  intro h
  apply ha
  have hd := congrArg String.data h
  rw [String.data_append] at hd
  have hd2 : a.data ++ b.data = ([] : List Char) := hd.trans (by decide)
  have hnil : a.data = [] := (List.append_eq_nil.mp hd2).1
  calc a = String.mk a.data := (stringMk_data a).symm
  _ = String.mk [] := by rw [hnil]
  _ = "" := by decide

/-! Claim theorems. -/

/-- Claim C2 (amended).  In the Workers handler, for every non-`OPTIONS`,
non-`/health` request whose target parameter equals or extends the proxy's
own (non-empty) origin — in particular with any query parameters appended —
validation fails with `LoopDetected` and the HTTP layer returns 400.  The
Node variant (`proxy-server.js`) performs no loop check at all and proceeds
to fetch any parseable self-referential target. -/
theorem claim2_loop_amended :
    (∀ (parse : String → Bool) (method pathname origin suffix : String),
      method ≠ "OPTIONS" → pathname ≠ "/health" → origin ≠ "" →
      handleRequestModel parse method pathname origin (some (origin ++ suffix)) =
        RouteOutcome.loopDetected ∧
      statusOf (handleRequestModel parse method pathname origin (some (origin ++ suffix))) =
        some 400 ∧
      errorKindOf (handleRequestModel parse method pathname origin (some (origin ++ suffix))) =
        some ErrorKind.LoopDetected) ∧
    (∀ (parse : String → Bool) (password method pathname origin suffix : String)
      (auth : Option String),
      method ≠ "OPTIONS" → pathname ≠ "/health" → origin ≠ "" → password = "" →
      parse (origin ++ suffix) = true →
      nodeHandle parse password method pathname (some (origin ++ suffix)) auth =
        NodeOutcome.proceed (origin ++ suffix) ∧
      nodeStatusOf (nodeHandle parse password method pathname (some (origin ++ suffix)) auth) ≠
        some 400) := by
  constructor
  · intro parse method pathname origin suffix hm hp ho
    have hne : ¬(origin ++ suffix = "") := append_ne_empty_left origin suffix ho
    have hpre : origin.data.isPrefixOf (origin ++ suffix).data = true := by
      rw [String.data_append]
      exact List.isPrefixOf_iff_prefix.mpr ⟨suffix.data, rfl⟩
    have hout : handleRequestModel parse method pathname origin (some (origin ++ suffix)) =
        RouteOutcome.loopDetected := by
      show (if method = "OPTIONS" then RouteOutcome.preflight
        else if pathname = "/health" then RouteOutcome.health
        else if (origin ++ suffix) = "" then RouteOutcome.helpPage
        else if origin.data.isPrefixOf (origin ++ suffix).data then RouteOutcome.loopDetected
        else if httpSchemeTest (origin ++ suffix) = false then RouteOutcome.invalidTarget
        else if parse (origin ++ suffix) then RouteOutcome.proceed (origin ++ suffix)
        else RouteOutcome.invalidFormat) = RouteOutcome.loopDetected
      rw [if_neg hm, if_neg hp, if_neg hne, if_pos hpre]
    exact ⟨hout, by rw [hout]; rfl, by rw [hout]; rfl⟩
  · intro parse password method pathname origin suffix auth hm hp ho hpw hparse
    have hne : ¬(origin ++ suffix = "") := append_ne_empty_left origin suffix ho
    have hout : nodeHandle parse password method pathname (some (origin ++ suffix)) auth =
        NodeOutcome.proceed (origin ++ suffix) := by
      show (if method = "OPTIONS" then NodeOutcome.preflight
        else if pathname = "/health" then NodeOutcome.health
        else if (origin ++ suffix) = "" then NodeOutcome.helpPage
        else if password ≠ "" ∧ auth ≠ some ("Bearer " ++ password) then
          NodeOutcome.unauthorized
        else if parse (origin ++ suffix) then NodeOutcome.proceed (origin ++ suffix)
        else NodeOutcome.invalidURL) = NodeOutcome.proceed (origin ++ suffix)
      rw [if_neg hm, if_neg hp, if_neg hne, if_neg (fun hh => hh.1 hpw), if_pos hparse]
    exact ⟨hout, by rw [hout]; simp [nodeStatusOf]⟩

/-- Claim C2 witness: a concrete origin-prefixed target is rejected as a
loop with status 400 by the Workers handler. -/
theorem claim2_witness :
    handleRequestModel (fun _ => true) "GET" "/" "https://proxy.example"
      (some ("https://proxy.example" ++ "/?url=x")) = RouteOutcome.loopDetected ∧
    statusOf (handleRequestModel (fun _ => true) "GET" "/" "https://proxy.example"
      (some ("https://proxy.example" ++ "/?url=x"))) = some 400 ∧
    errorKindOf (handleRequestModel (fun _ => true) "GET" "/" "https://proxy.example"
      (some ("https://proxy.example" ++ "/?url=x"))) = some ErrorKind.LoopDetected :=
  claim2_loop_amended.1 (fun _ => true) "GET" "/" "https://proxy.example" "/?url=x"
    (by decide) (by decide) (by decide)

/-- Claim C2 counterexample.  The claim as stated is false for the Node
variant: with the server's own origin `http://localhost:8080`, a target
prefixed by it is not answered with 400 — the handler proceeds to fetch it
(there is no loop check in `proxy-server.js`). -/
theorem claim2_counterexample :
    nodeHandle (fun _ => true) "" "GET" "/"
      (some "http://localhost:8080/?url=https://v.example/a.m3u8") none =
      NodeOutcome.proceed "http://localhost:8080/?url=https://v.example/a.m3u8" ∧
    nodeStatusOf (nodeHandle (fun _ => true) "" "GET" "/"
      (some "http://localhost:8080/?url=https://v.example/a.m3u8") none) ≠ some 400 := by
  decide

/-- Claim C8.  A target that fails the `^https?://` regex (such as
`ftp://…` or `not-a-url`) or that the platform URL parser rejects is
answered with `InvalidFormat` and status 400, for every request that
reaches target validation (not `OPTIONS`, not `/health`, target non-empty
and not origin-prefixed, since those checks run first). -/
theorem claim8_invalid_format :
    ∀ (parse : String → Bool) (method pathname origin raw : String),
      method ≠ "OPTIONS" → pathname ≠ "/health" → raw ≠ "" →
      origin.data.isPrefixOf raw.data = false →
      (httpSchemeTest raw = false ∨ parse raw = false) →
      errorKindOf (handleRequestModel parse method pathname origin (some raw)) =
        some ErrorKind.InvalidFormat ∧
      statusOf (handleRequestModel parse method pathname origin (some raw)) = some 400 := by
  intro parse method pathname origin raw hm hp hraw hpref hbad
  have hshow : handleRequestModel parse method pathname origin (some raw) =
      (if method = "OPTIONS" then RouteOutcome.preflight
        else if pathname = "/health" then RouteOutcome.health
        else if raw = "" then RouteOutcome.helpPage
        else if origin.data.isPrefixOf raw.data then RouteOutcome.loopDetected
        else if httpSchemeTest raw = false then RouteOutcome.invalidTarget
        else if parse raw then RouteOutcome.proceed raw
        else RouteOutcome.invalidFormat) := rfl
  rcases hbad with hre | hpar
  · have hout : handleRequestModel parse method pathname origin (some raw) =
        RouteOutcome.invalidTarget := by
      rw [hshow, if_neg hm, if_neg hp, if_neg hraw, if_neg (by simp [hpref]), if_pos hre]
    exact ⟨by rw [hout]; rfl, by rw [hout]; rfl⟩
  · by_cases hs : httpSchemeTest raw = false
    · have hout : handleRequestModel parse method pathname origin (some raw) =
          RouteOutcome.invalidTarget := by
        rw [hshow, if_neg hm, if_neg hp, if_neg hraw, if_neg (by simp [hpref]), if_pos hs]
      exact ⟨by rw [hout]; rfl, by rw [hout]; rfl⟩
    · have hout : handleRequestModel parse method pathname origin (some raw) =
          RouteOutcome.invalidFormat := by
        rw [hshow, if_neg hm, if_neg hp, if_neg hraw, if_neg (by simp [hpref]), if_neg hs,
          if_neg (by simp [hpar])]
      exact ⟨by rw [hout]; rfl, by rw [hout]; rfl⟩

/-- Claim C8 witness: `not-a-url` is rejected as `InvalidFormat` with 400. -/
theorem claim8_witness :
    errorKindOf (handleRequestModel (fun _ => true) "GET" "/" "https://proxy.example"
      (some "not-a-url")) = some ErrorKind.InvalidFormat ∧
    statusOf (handleRequestModel (fun _ => true) "GET" "/" "https://proxy.example"
      (some "not-a-url")) = some 400 :=
  claim8_invalid_format (fun _ => true) "GET" "/" "https://proxy.example" "not-a-url"
    (by decide) (by decide) (by decide) (by decide) (Or.inl (by decide))

/-- Claim C9 (amended).  A request whose target-URL parameter is absent or
empty is answered with the help page and status 200 — not with a
`MissingParameter` error and 400 as the claim states (both variants return
`getHelpPage` with status 200 in this case). -/
theorem claim9_missing_param_amended :
    ∀ (parse : String → Bool) (method pathname origin : String) (q : Option String),
      method ≠ "OPTIONS" → pathname ≠ "/health" → (q = none ∨ q = some "") →
      handleRequestModel parse method pathname origin q = RouteOutcome.helpPage ∧
      statusOf (handleRequestModel parse method pathname origin q) = some 200 ∧
      errorKindOf (handleRequestModel parse method pathname origin q) = none := by
  intro parse method pathname origin q hm hp hq
  have hout : handleRequestModel parse method pathname origin q = RouteOutcome.helpPage := by
    rcases hq with rfl | rfl
    · show (if method = "OPTIONS" then RouteOutcome.preflight
        else if pathname = "/health" then RouteOutcome.health
        else RouteOutcome.helpPage) = RouteOutcome.helpPage
      rw [if_neg hm, if_neg hp]
    · show (if method = "OPTIONS" then RouteOutcome.preflight
        else if pathname = "/health" then RouteOutcome.health
        else if ("" : String) = "" then RouteOutcome.helpPage
        else if origin.data.isPrefixOf ("" : String).data then RouteOutcome.loopDetected
        else if httpSchemeTest "" = false then RouteOutcome.invalidTarget
        else if parse "" then RouteOutcome.proceed ""
        else RouteOutcome.invalidFormat) = RouteOutcome.helpPage
      rw [if_neg hm, if_neg hp, if_pos rfl]
  exact ⟨hout, by rw [hout]; rfl, by rw [hout]; rfl⟩

/-- Claim C9 witness: a concrete empty-parameter request yields the help
page with status 200 and no error. -/
theorem claim9_witness :
    handleRequestModel (fun _ => true) "GET" "/" "https://proxy.example" (some "") =
      RouteOutcome.helpPage ∧
    statusOf (handleRequestModel (fun _ => true) "GET" "/" "https://proxy.example"
      (some "")) = some 200 ∧
    errorKindOf (handleRequestModel (fun _ => true) "GET" "/" "https://proxy.example"
      (some "")) = none :=
  claim9_missing_param_amended (fun _ => true) "GET" "/" "https://proxy.example" (some "")
    (by decide) (by decide) (Or.inr rfl)

/-- Claim C9 counterexample.  The claim as stated is false: on a concrete
request with the parameter absent, the HTTP status is 200 (help page),
not 400. -/
theorem claim9_counterexample :
    handleRequestModel (fun _ => true) "GET" "/" "https://proxy.example" none =
      RouteOutcome.helpPage ∧
    statusOf (handleRequestModel (fun _ => true) "GET" "/" "https://proxy.example" none) =
      some 200 ∧
    statusOf (handleRequestModel (fun _ => true) "GET" "/" "https://proxy.example" none) ≠
      some 400 := by
  decide

/-- Claim C3 (amended).  For every origin response header map, the
downstream header map contains no `content-encoding`, `transfer-encoding`,
`connection`, `keep-alive`, or `access-control-allow-credentials` header
(origin names matched case-insensitively), and maps each of the five fixed
CORS header names to the proxy's fixed value regardless of what the origin
sent for those names.  (The exclusion covers the six access-control names
enumerated in the code, not every `access-control-*` name, see the
counterexample.) -/
theorem claim3_headers_amended (originHeaders : List (String × String)) :
    (hget (buildDownstreamHeaders originHeaders) "content-encoding" = none ∧
     hget (buildDownstreamHeaders originHeaders) "transfer-encoding" = none ∧
     hget (buildDownstreamHeaders originHeaders) "connection" = none ∧
     hget (buildDownstreamHeaders originHeaders) "keep-alive" = none ∧
     hget (buildDownstreamHeaders originHeaders) "access-control-allow-credentials" = none) ∧
    (hget (buildDownstreamHeaders originHeaders) "access-control-allow-origin" = some "*" ∧
     hget (buildDownstreamHeaders originHeaders) "access-control-allow-methods" =
       some "GET, POST, PUT, DELETE, OPTIONS, HEAD" ∧
     hget (buildDownstreamHeaders originHeaders) "access-control-allow-headers" =
       some "Content-Type, Authorization, Range" ∧
     hget (buildDownstreamHeaders originHeaders) "access-control-expose-headers" =
       some "Content-Length, Content-Range" ∧
     hget (buildDownstreamHeaders originHeaders) "access-control-max-age" = some "86400") := by
  have hbase : ∀ n : String, n ∈ excludeHeaders → lowerStr n = n →
      hget (originHeaders.foldl (fun acc kv =>
        if lowerStr kv.1 ∈ excludeHeaders then acc else hset acc kv.1 kv.2) []) n = none :=
    fun n hm hl => hget_copy_fold_excluded originHeaders [] n hm hl rfl
  unfold buildDownstreamHeaders
  refine ⟨⟨?_, ?_, ?_, ?_, ?_⟩, ?_, ?_, ?_, ?_, ?_⟩
  · rw [hget_corsFold, if_neg (by decide), if_neg (by decide), if_neg (by decide),
      if_neg (by decide), if_neg (by decide)]
    exact hbase _ (by decide) (by decide)
  · rw [hget_corsFold, if_neg (by decide), if_neg (by decide), if_neg (by decide),
      if_neg (by decide), if_neg (by decide)]
    exact hbase _ (by decide) (by decide)
  · rw [hget_corsFold, if_neg (by decide), if_neg (by decide), if_neg (by decide),
      if_neg (by decide), if_neg (by decide)]
    exact hbase _ (by decide) (by decide)
  · rw [hget_corsFold, if_neg (by decide), if_neg (by decide), if_neg (by decide),
      if_neg (by decide), if_neg (by decide)]
    exact hbase _ (by decide) (by decide)
  · rw [hget_corsFold, if_neg (by decide), if_neg (by decide), if_neg (by decide),
      if_neg (by decide), if_neg (by decide)]
    exact hbase _ (by decide) (by decide)
  · rw [hget_corsFold, if_neg (by decide), if_neg (by decide), if_neg (by decide),
      if_neg (by decide), if_pos (by decide)]
  · rw [hget_corsFold, if_neg (by decide), if_neg (by decide), if_neg (by decide),
      if_pos (by decide)]
  · rw [hget_corsFold, if_neg (by decide), if_neg (by decide), if_pos (by decide)]
  · rw [hget_corsFold, if_neg (by decide), if_pos (by decide)]
  · rw [hget_corsFold, if_pos (by decide)]

/-- Claim C3 counterexample.  The claim as stated ("no access-control-*
header originating from the origin, for every access-control-* name") is
false: an origin header named `access-control-foo` is not in the code's
exclusion set and passes through to the downstream map. -/
theorem claim3_counterexample :
    hget (buildDownstreamHeaders [("access-control-foo", "leak")]) "access-control-foo" =
      some "leak" := by
  decide

/-- Claim C7.  The Workers variant behaves as claimed (second and third
conjuncts: an inbound `accept` is copied, no `Accept: */*` default is
added, and only the spoofed and copied headers appear).  The Node variant
does not: evaluated on the same inbound map, its outbound object contains
both the copied `accept: text/html` and the default `Accept: */*`, because
`if (!proxyOptions.headers['Accept'])` reads a different (case-sensitive)
key than the `accept` that was copied, so the default is added even though
the client supplied an accept header. -/
theorem claim7_node_accept_bug :
    nodeUpstreamHeaders [("accept", "text/html")] "https://media.example" =
      [("Referer", "https://media.example/"), ("Origin", "https://media.example"),
       ("User-Agent", userAgentString), ("accept", "text/html"), ("Accept", "*/*")] ∧
    buildUpstreamHeaders [("accept", "text/html")] "https://media.example" =
      [("referer", "https://media.example/"), ("origin", "https://media.example"),
       ("user-agent", userAgentString), ("accept", "text/html")] ∧
    hget (buildUpstreamHeaders [("accept", "text/html")] "https://media.example") "accept" =
      some "text/html" := by
  decide

/-- Claim C1.  First conjunct: every playlist line whose trimmed form is
non-empty and does not start with `#` is replaced wholesale by
`proxyOrigin ++ "/?url=" ++ percentEncode(absoluteURL)`, where the
absolute URL is obtained by the claim's four-way classification
(`resolveClassSpec`) of the trimmed reference against the base origin and
base path.  Second conjunct: byte-for-byte, for base
`https://cdn.example.com/videos/abc/index.m3u8` the one-line playlist
`seg001.ts` rewrites to
`proxyOrigin ++ "/?url=https%3A%2F%2Fcdn.example.com%2Fvideos%2Fabc%2Fseg001.ts"`. -/
theorem claim1_media_line_rewrite :
    (∀ (bo bp po line : List Char),
      trimChars line ≠ [] →
      "#".data.isPrefixOf (trimChars line) = false →
      rewriteLine bo bp po line =
        po ++ "/?url=".data ++
          encodeURIComponentChars (resolveClassSpec (trimChars line) bo bp)) ∧
    (∀ proxy : String,
      rewriteM3u8 "seg001.ts" ⟨"https://cdn.example.com", "/videos/abc/index.m3u8"⟩ proxy =
        proxy ++ "/?url=https%3A%2F%2Fcdn.example.com%2Fvideos%2Fabc%2Fseg001.ts") := by
  have hmedia : ∀ (bo bp po line : List Char),
      trimChars line ≠ [] → "#".data.isPrefixOf (trimChars line) = false →
      rewriteLine bo bp po line =
        po ++ "/?url=".data ++
          encodeURIComponentChars (resolveClassSpec (trimChars line) bo bp) := by
    intro bo bp po line h1 h2
    have hdir : isDirective (trimChars line) = false := by
      unfold isDirective
      rw [h2]
      cases h : (trimChars line).isEmpty
      · rfl
      · exact absurd (List.isEmpty_iff.mp h) h1
    rw [rewriteLine_media bo bp po line hdir]
    rfl
  refine ⟨hmedia, ?_⟩
  intro proxy
  have hsplit : splitLines ("seg001.ts" : String).data = [("seg001.ts" : String).data] := by
    decide
  unfold rewriteM3u8
  rw [hsplit]
  simp only [List.map_cons, List.map_nil]
  have hjoin : ∀ x : List Char, joinLines [x] = x := fun _ => rfl
  rw [hjoin]
  rw [hmedia _ _ _ _ (by decide) (by decide)]
  rw [show resolveClassSpec (trimChars ("seg001.ts" : String).data)
      ("https://cdn.example.com" : String).data
      (dropAfterLastSlash ("/videos/abc/index.m3u8" : String).data) =
      ("https://cdn.example.com/videos/abc/seg001.ts" : String).data from by decide]
  rw [show encodeURIComponentChars
      ("https://cdn.example.com/videos/abc/seg001.ts" : String).data =
      ("https%3A%2F%2Fcdn.example.com%2Fvideos%2Fabc%2Fseg001.ts" : String).data from by
    decide]
  rw [List.append_assoc]
  rw [show ("/?url=" : String).data ++
      ("https%3A%2F%2Fcdn.example.com%2Fvideos%2Fabc%2Fseg001.ts" : String).data =
      ("/?url=https%3A%2F%2Fcdn.example.com%2Fvideos%2Fabc%2Fseg001.ts" : String).data from by
    decide]
  exact stringMk_append proxy _

/-- Claim C1 witness: the first conjunct applied at the claim's concrete
example line and base. -/
theorem claim1_witness :
    rewriteLine ("https://cdn.example.com" : String).data ("/videos/abc/" : String).data
      ("https://proxy.example" : String).data ("seg001.ts" : String).data =
      ("https://proxy.example" : String).data ++ ("/?url=" : String).data ++
        encodeURIComponentChars (resolveClassSpec (trimChars ("seg001.ts" : String).data)
          ("https://cdn.example.com" : String).data ("/videos/abc/" : String).data) :=
  claim1_media_line_rewrite.1 _ _ _ _ (by decide) (by decide)

/-- Claim C5 (amended).  For every directive line decomposed as literal
stretches around one or more `URI="..."` attributes — non-empty quote-free
values (the shape the regex group `([^"]+)` captures), literal stretches
that may contain other quoted attributes but no occurrence of the
five-character sequence `URI="` — `rewriteLine` replaces exactly each
quoted capture by `URI="proxyOrigin/?url=percentEncode(resolveUrl(capture))"`
and preserves every other character of the line verbatim.  The no-`URI="`
restriction on the literal stretches is forced by the counterexample: the
regex matches the textually first `URI="`, wherever it occurs. -/
theorem claim5_uri_attribute_rewrite :
    ∀ (bo bp po lit : List Char) (segs : List (List Char × List Char)),
      containsSub uriPat lit = false →
      (∀ p ∈ segs, SegOk p) →
      segs ≠ [] →
      isDirective (trimChars (lit ++ segTail segs)) = true →
      rewriteLine bo bp po (lit ++ segTail segs) =
        lit ++ segTailRepl (uriRepl bo bp po) segs := by
  intro bo bp po lit segs hlit hsegs hne hdir
  have hsub : containsSub uriPat (trimChars (lit ++ segTail segs)) = true := by
    rw [containsSub_correct]
    refine infix_trimChars uriPat _ (by decide) (by decide) ?_
    rcases segs with _ | ⟨⟨u, l0⟩, rest⟩
    · exact absurd rfl hne
    · rw [segTail_cons_eq]
      exact ⟨lit, u ++ '"' :: (l0 ++ segTail rest), by rw [List.append_assoc]⟩
  rw [rewriteLine_directive_scan _ _ _ _ hdir hsub]
  exact scanURI_segs _ lit segs hlit hsegs

/-- Claim C5 witness: three concrete directive lines — the claim's own
`#EXT-X-KEY` example, a key directive with a trailing quoted
`KEYFORMAT="identity"` attribute, and a media directive with a preceding
quoted `NAME="English"` attribute — each rewrite only the quoted URI value
and keep every other character verbatim. -/
theorem claim5_witness :
    rewriteLine ("https://cdn.example.com" : String).data ("/videos/abc/" : String).data
      ("https://proxy.example" : String).data
      ("#EXT-X-KEY:METHOD=AES-128,URI=\"key.bin\"" : String).data =
      ("#EXT-X-KEY:METHOD=AES-128,URI=\"https://proxy.example/?url=https%3A%2F%2Fcdn.example.com%2Fvideos%2Fabc%2Fkey.bin\"" : String).data ∧
    rewriteLine ("https://cdn.example.com" : String).data ("/videos/abc/" : String).data
      ("https://proxy.example" : String).data
      ("#EXT-X-KEY:METHOD=AES-128,URI=\"key.bin\",KEYFORMAT=\"identity\"" : String).data =
      ("#EXT-X-KEY:METHOD=AES-128,URI=\"https://proxy.example/?url=https%3A%2F%2Fcdn.example.com%2Fvideos%2Fabc%2Fkey.bin\",KEYFORMAT=\"identity\"" : String).data ∧
    rewriteLine ("https://cdn.example.com" : String).data ("/videos/abc/" : String).data
      ("https://proxy.example" : String).data
      ("#EXT-X-MEDIA:TYPE=AUDIO,NAME=\"English\",URI=\"audio.m3u8\"" : String).data =
      ("#EXT-X-MEDIA:TYPE=AUDIO,NAME=\"English\",URI=\"https://proxy.example/?url=https%3A%2F%2Fcdn.example.com%2Fvideos%2Fabc%2Faudio.m3u8\"" : String).data := by
  refine ⟨?_, ?_, ?_⟩
  · have h := claim5_uri_attribute_rewrite ("https://cdn.example.com" : String).data
      ("/videos/abc/" : String).data ("https://proxy.example" : String).data
      ("#EXT-X-KEY:METHOD=AES-128," : String).data [(("key.bin" : String).data, [])]
      (by decide) (by decide) (by decide) (by decide)
    rw [show ("#EXT-X-KEY:METHOD=AES-128," : String).data ++
        segTail [(("key.bin" : String).data, [])] =
        ("#EXT-X-KEY:METHOD=AES-128,URI=\"key.bin\"" : String).data from by decide] at h
    rw [h]
    decide
  · have h := claim5_uri_attribute_rewrite ("https://cdn.example.com" : String).data
      ("/videos/abc/" : String).data ("https://proxy.example" : String).data
      ("#EXT-X-KEY:METHOD=AES-128," : String).data
      [(("key.bin" : String).data, (",KEYFORMAT=\"identity\"" : String).data)]
      (by decide) (by decide) (by decide) (by decide)
    rw [show ("#EXT-X-KEY:METHOD=AES-128," : String).data ++
        segTail [(("key.bin" : String).data, (",KEYFORMAT=\"identity\"" : String).data)] =
        ("#EXT-X-KEY:METHOD=AES-128,URI=\"key.bin\",KEYFORMAT=\"identity\"" : String).data
      from by decide] at h
    rw [h]
    decide
  · have h := claim5_uri_attribute_rewrite ("https://cdn.example.com" : String).data
      ("/videos/abc/" : String).data ("https://proxy.example" : String).data
      ("#EXT-X-MEDIA:TYPE=AUDIO,NAME=\"English\"," : String).data
      [(("audio.m3u8" : String).data, [])]
      (by decide) (by decide) (by decide) (by decide)
    rw [show ("#EXT-X-MEDIA:TYPE=AUDIO,NAME=\"English\"," : String).data ++
        segTail [(("audio.m3u8" : String).data, [])] =
        ("#EXT-X-MEDIA:TYPE=AUDIO,NAME=\"English\",URI=\"audio.m3u8\"" : String).data from by
      decide] at h
    rw [h]
    decide

/-- Claim C5 counterexample.  The claim as stated is false on the directive
line `#A:B="URI=",URI="k"`: the regex `/URI="([^"]+)"/g` matches the
textually first `URI="`, which sits inside the quoted value of the `B`
attribute, captures `,URI=` across the attribute boundary, and never
rewrites the real URI value `k`.  The first conjunct computes the code's
actual (mangled) output; the second states that it differs from the output
the claim mandates (every character outside the quoted URI value preserved
verbatim and only `k` resolved and re-encoded). -/
theorem claim5_counterexample :
    rewriteLine ("https://cdn.example.com" : String).data ("/videos/abc/" : String).data
      ("https://proxy.example" : String).data ("#A:B=\"URI=\",URI=\"k\"" : String).data =
      ("#A:B=\"URI=\"https://proxy.example/?url=https%3A%2F%2Fcdn.example.com%2Fvideos%2Fabc%2F%2CURI%3D\"k\"" : String).data ∧
    rewriteLine ("https://cdn.example.com" : String).data ("/videos/abc/" : String).data
      ("https://proxy.example" : String).data ("#A:B=\"URI=\",URI=\"k\"" : String).data ≠
      ("#A:B=\"URI=\",URI=\"https://proxy.example/?url=https%3A%2F%2Fcdn.example.com%2Fvideos%2Fabc%2Fk\"" : String).data := by
  refine ⟨by decide, by decide⟩

/-- Claim C6.  First conjunct: every line whose trimmed form is empty or
starts with `#` and contains no `URI="` attribute passes through
`rewriteLine` unchanged.  Second conjunct: a playlist made only of such
lines is a fixed point of `rewriteM3u8`. -/
theorem claim6_directive_passthrough :
    (∀ (bo bp po line : List Char),
      isDirective (trimChars line) = true →
      containsSub uriPat (trimChars line) = false →
      rewriteLine bo bp po line = line) ∧
    (∀ (content : String) (baseUrl : URLParts) (proxyOrigin : String),
      (∀ l ∈ splitLines content.data, isDirective (trimChars l) = true ∧
        containsSub uriPat (trimChars l) = false) →
      rewriteM3u8 content baseUrl proxyOrigin = content) := by
  refine ⟨rewriteLine_directive_plain, ?_⟩
  intro content baseUrl proxyOrigin h
  unfold rewriteM3u8
  have hmap : (splitLines content.data).map
      (rewriteLine baseUrl.origin.data (dropAfterLastSlash baseUrl.pathname.data)
        proxyOrigin.data) = splitLines content.data := by
    refine (List.map_congr_left ?_).trans (List.map_id _)
    intro l hl
    exact rewriteLine_directive_plain _ _ _ l (h l hl).1 (h l hl).2
  rw [hmap, joinLines_splitLines]

/-- Claim C6 witness: a concrete directive-and-blank-only playlist is
returned unchanged. -/
theorem claim6_witness :
    rewriteM3u8 "#EXTM3U\n#EXT-X-VERSION:3\n\n#EXT-X-ENDLIST"
      ⟨"https://cdn.example.com", "/videos/abc/index.m3u8"⟩ "https://proxy.example" =
      "#EXTM3U\n#EXT-X-VERSION:3\n\n#EXT-X-ENDLIST" :=
  claim6_directive_passthrough.2 _ _ _ (by decide)

/-- Claim C10 (amended).  For every playlist text and base URL, and every
proxy origin containing no line feed, the rewritten playlist has exactly
as many line-feed-separated lines as the input.  (The restriction on the
proxy origin is forced: the origin is pasted verbatim into media lines,
see the counterexample.) -/
theorem claim10_line_count_amended :
    ∀ (content : String) (baseUrl : URLParts) (proxyOrigin : String),
      (∀ c ∈ proxyOrigin.data, c ≠ '\n') →
      (splitLines (rewriteM3u8 content baseUrl proxyOrigin).data).length =
        (splitLines content.data).length := by
  intro content baseUrl proxyOrigin hpo
  unfold rewriteM3u8
  have hmk : ∀ x : List Char, (String.mk x).data = x := fun _ => rfl
  rw [hmk]
  rw [splitLines_joinLines]
  · exact List.length_map _ _
  · intro hnil
    exact splitLines_ne_nil content.data (List.map_eq_nil_iff.mp hnil)
  · intro x hx
    obtain ⟨y, hy, rfl⟩ := List.mem_map.mp hx
    intro hmem
    refine rewriteLine_no_newline _ _ _ y ?_ hpo '\n' hmem rfl
    intro c hc he
    exact mem_splitLines_no_newline content.data y hy (he ▸ hc)

/-- Claim C10 witness: the amended claim applied to a concrete three-line
playlist with a newline-free proxy origin. -/
theorem claim10_witness :
    (splitLines (rewriteM3u8 "#EXTM3U\nseg1.ts\nseg2.ts"
      ⟨"https://h.example", "/d/x.m3u8"⟩ "https://proxy.example").data).length =
      (splitLines ("#EXTM3U\nseg1.ts\nseg2.ts" : String).data).length :=
  claim10_line_count_amended "#EXTM3U\nseg1.ts\nseg2.ts" ⟨"https://h.example", "/d/x.m3u8"⟩
    "https://proxy.example" (by decide)

/-- Claim C10 counterexample.  The claim as stated quantifies over every
proxy origin; with the two-line origin string `https://p.example\nevil`
the single-line playlist `seg001.ts` rewrites to a two-line output, so the
line count is not preserved. -/
theorem claim10_counterexample :
    (splitLines (rewriteM3u8 "seg001.ts" ⟨"https://cdn.example.com", "/videos/abc/index.m3u8"⟩
      "https://p.example\nevil").data).length ≠
      (splitLines ("seg001.ts" : String).data).length := by
  decide

end DongguaTV
